import Mathlib

/-!
Verification of the interactive terminal quiz runner (`quiz.py`).

The development shallowly embeds the program's pure core:
* the question-bank line parser (`QuestionParser.parse_questions`),
* the answer-scoring predicate (`Quiz.check_answers`),
* the menu / option-highlight cursor arithmetic,
* the per-question interaction loop (`Quiz.show_question`),
* the run state machine (`Quiz.run_quiz`) with its shuffle, tally and
  rendered-screen trace, and
* the summary renderer (`Quiz.show_summary`).

Python machine-level details are embedded as follows: Python's `%` on a
positive modulus is Euclidean remainder, which is Lean's `Int.emod`;
Python sets become `Finset ℕ`; `random.sample` is driven by an arbitrary
index-choice oracle; blocking keyboard input becomes an explicit list or
stream of key events; code that can raise returns an `Option`.
-/

namespace QuizApp

/-- One logical key event as classified by `Quiz.get_arrow_key`.  The
`other` constructor stands for the empty-string result returned for any
unrecognized byte. -/
inductive Key
  | up
  | down
  | enter
  | esc
  | space
  | other
deriving DecidableEq, Repr

/-- A parsed question record (dataclass `Question`). -/
structure Question where
  id : Int
  text : String
  options : List String
  correct_indices : List Nat
deriving DecidableEq, Repr

/-! ## Question-bank parsing (`QuestionParser.parse_questions`) -/

/-- Characters removed by Python's `str.strip()` (ASCII whitespace). -/
def pyIsSpace (c : Char) : Bool :=
  c == ' ' || c == '\t' || c == '\n' || c == '\r' || c == '\x0b' || c == '\x0c'

/-- Python `str.strip()`: drop leading and trailing whitespace. -/
def pyStrip (l : List Char) : List Char :=
  ((l.dropWhile pyIsSpace).reverse.dropWhile pyIsSpace).reverse

/-- Python `s.split(' ', 1)`: split on the first space character only. -/
def splitFirstSpace (l : List Char) : List (List Char) :=
  match l.span (· != ' ') with
  | (before, []) => [before]
  | (before, _ :: after) => [before, after]

/-- Python `s.split(c)` for a single-character separator: the result is
always a nonempty list of (possibly empty) segments. -/
def splitOnChar (c : Char) : List Char → List (List Char)
  | [] => [[]]
  | x :: xs =>
    let r := splitOnChar c xs
    if x = c then [] :: r
    else
      match r with
      | [] => [[x]]
      | h :: t => (x :: h) :: t

/-- Digit run accepted by Python's `int()` after the optional sign:
decimal digits, optionally grouped by single underscores. -/
def pyDigits (acc : Nat) : List Char → Option Nat
  | [] => some acc
  | '_' :: c :: cs =>
      if c.isDigit then pyDigits (acc * 10 + (c.toNat - 48)) cs else none
  | ['_'] => none
  | c :: cs =>
      if c.isDigit then pyDigits (acc * 10 + (c.toNat - 48)) cs else none

/-- Python `int(s)` on a decimal string: surrounding whitespace allowed,
optional sign, then a nonempty digit run; `none` models `ValueError`. -/
def pyInt? (l : List Char) : Option Int :=
  match pyStrip l with
  | '-' :: c :: cs =>
      if c.isDigit then (pyDigits (c.toNat - 48) cs).map (fun n => -(n : Int)) else none
  | '+' :: c :: cs =>
      if c.isDigit then (pyDigits (c.toNat - 48) cs).map (fun n => (n : Int)) else none
  | c :: cs =>
      if c.isDigit then (pyDigits (c.toNat - 48) cs).map (fun n => (n : Int)) else none
  | [] => none

/-- The option-collecting loop of `parse_questions`: for each segment, a
`[X]` prefix marks the option correct (prefix stripped), and the index
recorded is `len(options) - 1` right after the append. -/
def parseOptions : List (List Char) → List String → List Nat → List String × List Nat
  | [], options, correct_indices => (options, correct_indices)
  | seg :: rest, options, correct_indices =>
    if seg.take 3 = ['[', 'X', ']'] then
      let options' := options ++ [(seg.drop 3).asString]
      parseOptions rest options' (correct_indices ++ [options'.length - 1])
    else
      parseOptions rest (options ++ [seg.asString]) correct_indices

/-- One iteration of the `parse_questions` line loop: `none` when the
line is skipped (blank, fewer than two space-separated parts,
non-integer ID, fewer than two `*`-segments, or no options). -/
def parseLine (l : List Char) : Option (Int × Question) :=
  let line := pyStrip l
  if line = [] then none
  else
    let parts := splitFirstSpace line
    if parts.length < 2 then none
    else
      match pyInt? (parts.getD 0 []) with
      | none => none
      | some q_id =>
        let text_and_options := parts.getD 1 []
        let segments := splitOnChar '*' text_and_options
        if segments.length < 2 then none
        else
          let question_text := (segments.getD 0 []).asString
          let oc := parseOptions (segments.drop 1) [] []
          if oc.1 = [] then none
          else some (q_id, ⟨q_id, question_text, oc.1, oc.2⟩)

/-- Python `dict` assignment `questions[q_id] = ...`: overwrite in place
if the key exists, otherwise append (insertion order preserved). -/
def upsert (m : List (Int × Question)) (k : Int) (v : Question) : List (Int × Question) :=
  if m.any (fun p => p.1 == k) then
    m.map (fun p => if p.1 = k then (k, v) else p)
  else m ++ [(k, v)]

/-- `QuestionParser.parse_questions`, with the file's lines given as a
list: fold every line through `parseLine`, inserting parsed questions
into the mapping and skipping malformed lines. -/
def parse_questions (lines : List String) : List (Int × Question) :=
  lines.foldl
    (fun acc line =>
      match parseLine line.toList with
      | none => acc
      | some (k, v) => upsert acc k v)
    []

/-! ## Answer scoring (`Quiz.check_answers`) -/

/-- `Quiz.check_answers`: `set(user_answers) == set(correct_indices)`. -/
def check_answers (user_answers : List Nat) (correct_indices : List Nat) : Bool :=
  decide (user_answers.toFinset = correct_indices.toFinset)

/-! ## Cursor arithmetic

Both selection menus and the per-question option highlight compute
`(selected - 1) % n` and `(selected + 1) % n` with Python's `%`, which
on a positive modulus is the Euclidean remainder `Int.emod`. -/

/-- Cursor move for the `up` key: `(selected - 1) % n` in Python. -/
def menuUp (selected n : Nat) : Nat := (((selected : Int) - 1) % (n : Int)).toNat

/-- Cursor move for the `down` key: `(selected + 1) % n` in Python. -/
def menuDown (selected n : Nat) : Nat := (((selected : Int) + 1) % (n : Int)).toNat

/-! ## Per-question interaction loop (`Quiz.show_question`)

The loop's ephemeral state is the highlight cursor `selected` and the
Python set `checked` (a `Finset ℕ`).  One key event either updates the
state (`Sum.inl`) or leaves the loop with a result (`Sum.inr`):
`some answers` on submit, `none` on escape.  `list(checked)` is
enumerated in ascending order, as `list` on a CPython set of small
naturals does; since the checked set only ever holds option indices,
ascending enumeration is the filter of `List.range nopts`. -/

/-- `list(checked)` for a checked set of option indices. -/
def pySetList (nopts : Nat) (checked : Finset Nat) : List Nat :=
  (List.range nopts).filter (fun x => decide (x ∈ checked))

/-- One iteration of the `show_question` event loop. -/
def show_question_step (nopts : Nat) (k : Key) (selected : Nat) (checked : Finset Nat) :
    (Nat × Finset Nat) ⊕ Option (List Nat) :=
  match k with
  | .up => .inl (menuUp selected nopts, checked)
  | .down => .inl (menuDown selected nopts, checked)
  | .space =>
      .inl (selected,
        if selected ∈ checked then checked.erase selected else insert selected checked)
  | .enter =>
      if checked = ∅ then .inl (selected, checked)
      else .inr (some (pySetList nopts checked))
  | .esc => .inr none
  | .other => .inl (selected, checked)

/-- The `show_question` event loop run on a finite list of key events;
`none` means the key list was exhausted with the loop still blocked. -/
def show_question_loop (nopts : Nat) :
    List Key → Nat → Finset Nat → Option (Option (List Nat))
  | [], _, _ => none
  | k :: ks, selected, checked =>
    match show_question_step nopts k selected checked with
    | .inl (s, c) => show_question_loop nopts ks s c
    | .inr r => some r

/-- `Quiz.show_question`: the loop started from `selected = 0`,
`checked = set()`. -/
def show_question (nopts : Nat) (keys : List Key) : Option (Option (List Nat)) :=
  show_question_loop nopts keys 0 ∅

/-! ## Shuffle (`random.sample`)

`random.sample(population, k)` draws `k` distinct positions without
replacement.  The randomness source is an arbitrary index-choice oracle
`pick`: at each step the element at position `pick step % remaining` is
drawn and removed. -/

/-- Selection-without-replacement driven by the oracle `pick`. -/
def sampleAux (pick : Nat → Nat) : Nat → Nat → List Int → List Int
  | 0, _, _ => []
  | _ + 1, _, [] => []
  | k + 1, step, x :: xs =>
    let l := x :: xs
    let i := pick step % l.length
    l.get ⟨i, Nat.mod_lt _ (Nat.succ_pos _)⟩ :: sampleAux pick k (step + 1) (l.eraseIdx i)

/-- `random.sample(population, k)` under the oracle `pick`. -/
def pySample (pick : Nat → Nat) (population : List Int) (k : Nat) : List Int :=
  sampleAux pick k 0 population

/-! ## Session state and the run state machine (`Quiz.run_quiz`) -/

/-- The mutable `Quiz` session fields: `quiz_questions`,
`current_index` and the `stats` dictionary. -/
structure QuizState where
  quizQuestions : List Int
  currentIndex : Nat
  correct : Nat
  wrong : Nat
  total : Nat
deriving DecidableEq, Repr

/-- Screens rendered during a run, in order. -/
inductive Screen
  | question (qid : Int)
  | result (isCorrect : Bool) (qid : Int)
  | exitConfirmation (answered totalQ correct wrong : Nat)
  | summary (total correct wrong : Nat)
deriving DecidableEq, Repr

/-- Outcome of the `run_quiz` while-loop: final counters, final cursor,
whether the loop ended on the escape/abort path, and the screens
rendered. -/
structure RunResult where
  correct : Nat
  wrong : Nat
  currentIndex : Nat
  aborted : Bool
  screens : List Screen
deriving DecidableEq, Repr

/-- The first statements of `Quiz.run_quiz`: re-sample the *entire*
candidate sequence (`random.sample(question_ids, min(len, len))`),
reset the cursor to 0 and the tally to
`{'correct': 0, 'wrong': 0, 'total': len(self.quiz_questions)}`. -/
def run_quiz_start (pick : Nat → Nat) (st : QuizState) (question_ids : List Int) :
    QuizState :=
  let qq := pySample pick question_ids (min question_ids.length question_ids.length)
  { st with
    quizQuestions := qq
    currentIndex := 0
    correct := 0
    wrong := 0
    total := qq.length }

/-- The `run_quiz` while-loop over the remaining question IDs.  `find`
is the question store lookup `self.questions`, `answers` the oracle for
what `show_question` returns at the `k`-th presented question (`none`
models escape).  IDs absent from the store are skipped with just a
cursor advance; escape renders the exit confirmation and breaks out of
the loop. -/
def run_quiz_loop (find : Int → Option Question) (answers : Nat → Option (List Nat))
    (tot : Nat) : List Int → Nat → Nat → Nat → Nat → RunResult
  | [], _, idx, c, w => ⟨c, w, idx, false, []⟩
  | qid :: rest, k, idx, c, w =>
    match find qid with
    | none => run_quiz_loop find answers tot rest k (idx + 1) c w
    | some q =>
      match answers k with
      | none =>
          ⟨c, w, idx, true, [Screen.question qid, Screen.exitConfirmation idx tot c w]⟩
      | some user_answers =>
          let is_correct := check_answers user_answers q.correct_indices
          let c' := if is_correct then c + 1 else c
          let w' := if is_correct then w else w + 1
          let r := run_quiz_loop find answers tot rest (k + 1) (idx + 1) c' w'
          ⟨r.correct, r.wrong, r.currentIndex, r.aborted,
            Screen.question qid :: Screen.result is_correct qid :: r.screens⟩

/-- `Quiz.run_quiz`: initialization, the question loop, and then —
unconditionally, whether the loop finished or was left through the
escape `break` — the call to `show_summary` (here recorded as a final
`Screen.summary`). -/
def run_quiz (pick : Nat → Nat) (find : Int → Option Question)
    (answers : Nat → Option (List Nat)) (st : QuizState) (question_ids : List Int) :
    QuizState × RunResult :=
  let st0 := run_quiz_start pick st question_ids
  let r := run_quiz_loop find answers st0.total st0.quizQuestions 0 0 0 0
  ({ st0 with correct := r.correct, wrong := r.wrong, currentIndex := r.currentIndex },
   { r with screens := r.screens ++ [Screen.summary st0.total r.correct r.wrong] })

/-- The relevant statements of `main`'s loop body: truncate
`quiz_questions` to `random.sample(question_ids, min(20, len))`, then
call `run_quiz(question_ids)` (which overwrites that truncation). -/
def main_run_setup (pick1 pick2 : Nat → Nat) (st : QuizState) (question_ids : List Int) :
    QuizState :=
  let st1 := { st with
    quizQuestions := pySample pick1 question_ids (min 20 question_ids.length) }
  run_quiz_start pick2 st1 question_ids

/-! ## Summary (`Quiz.show_summary`)

The renderer returns the two printed percentages and the tier message,
or `none` when it raises.  The percentage expressions guard
`total > 0`; the tier comparison `correct / total >= 0.8` does not, so
`total = 0` raises `ZeroDivisionError` after the count lines print.
Real-number divisions are idealized as exact rationals:
`c / t >= 0.8` becomes `5 * c ≥ 4 * t` and `int(c / t * 100)` becomes
`c * 100 / t` (floor). -/

/-- `Quiz.show_summary` on a tally. -/
def show_summary (correct wrong total : Nat) : Option (Nat × Nat × String) :=
  let pcorrect := if total > 0 then correct * 100 / total else 0
  let pwrong := if total > 0 then wrong * 100 / total else 0
  if total = 0 then none
  else
    some (pcorrect, pwrong,
      if 5 * correct ≥ 4 * total then "Doskonale! 🎉"
      else if 5 * correct ≥ 3 * total then "Dobrze! 👍"
      else "Warto ćwiczyć! 📚")

/-! ## Cursor arithmetic lemmas -/

theorem menuUp_zero (n : Nat) (hn : 0 < n) : menuUp 0 n = n - 1 := by
  unfold menuUp
  simp only [Nat.cast_zero]
  have h1 : ((0 : Int) - 1) % (n : Int) = ((n : Int) - 1) % (n : Int) := by
    conv_rhs => rw [show ((n : Int) - 1) = -1 + (n : Int) * 1 by ring]
    rw [Int.add_mul_emod_self_left]
    norm_num
  have h2 : ((n : Int) - 1) % (n : Int) = (n : Int) - 1 :=
    Int.emod_eq_of_lt (by omega) (by omega)
  rw [h1, h2]
  omega

theorem menuUp_pos (selected n : Nat) (h : selected < n) (hs : 0 < selected) :
    menuUp selected n = selected - 1 := by
  unfold menuUp
  rw [Int.emod_eq_of_lt (by omega) (by omega)]
  omega

theorem menuDown_last (selected n : Nat) (h : selected < n) (hs : selected = n - 1) :
    menuDown selected n = 0 := by
  unfold menuDown
  rw [show ((selected : Int) + 1) = (n : Int) by omega, Int.emod_self]
  rfl

theorem menuDown_small (selected n : Nat) (h : selected + 1 < n) :
    menuDown selected n = selected + 1 := by
  unfold menuDown
  rw [Int.emod_eq_of_lt (by omega) (by omega)]
  omega

theorem menuUp_lt (selected n : Nat) (hn : 0 < n) : menuUp selected n < n := by
  unfold menuUp
  have h1 := Int.emod_nonneg ((selected : Int) - 1) (show (n : Int) ≠ 0 by omega)
  have h2 := Int.emod_lt_of_pos ((selected : Int) - 1) (show (0 : Int) < (n : Int) by omega)
  omega

theorem menuDown_lt (selected n : Nat) (hn : 0 < n) : menuDown selected n < n := by
  unfold menuDown
  have h1 := Int.emod_nonneg ((selected : Int) + 1) (show (n : Int) ≠ 0 by omega)
  have h2 := Int.emod_lt_of_pos ((selected : Int) + 1) (show (0 : Int) < (n : Int) by omega)
  omega

/-- C7: in every menu and in the per-question option highlight with `n`
entries, `up` at index 0 wraps to `n - 1` and otherwise decrements, and
`down` at index `n - 1` wraps to 0 and otherwise increments. -/
theorem menu_cursor_wraps (selected n : Nat) (h : selected < n) :
    (selected = 0 → menuUp selected n = n - 1) ∧
    (0 < selected → menuUp selected n = selected - 1) ∧
    (selected = n - 1 → menuDown selected n = 0) ∧
    (selected + 1 < n → menuDown selected n = selected + 1) := by
  refine ⟨?_, ?_, ?_, ?_⟩
  · intro hs; subst hs; exact menuUp_zero n (by omega)
  · intro hs; exact menuUp_pos selected n h hs
  · intro hs; exact menuDown_last selected n h hs
  · intro hs; exact menuDown_small selected n hs

/-- Witness for C7 at a concrete 3-entry menu. -/
theorem menu_cursor_wraps_witness :
    menuUp 0 3 = 2 ∧ menuUp 2 3 = 1 ∧ menuDown 2 3 = 0 ∧ menuDown 1 3 = 2 :=
  ⟨(menu_cursor_wraps 0 3 (by decide)).1 rfl,
   (menu_cursor_wraps 2 3 (by decide)).2.1 (by decide),
   (menu_cursor_wraps 2 3 (by decide)).2.2.1 (by decide),
   (menu_cursor_wraps 1 3 (by decide)).2.2.2 (by decide)⟩

/-! ## Scoring -/

/-- C4: `check_answers` is exactly set equality of submitted and
correct indices: invariant under permutation and duplication of the
submission, false on every strict subset and strict superset, with the
spec's concrete examples. -/
theorem check_answers_set_equality :
    (∀ ua ci : List Nat, check_answers ua ci = true ↔ ua.toFinset = ci.toFinset) ∧
    (∀ ua ua' ci : List Nat, ua.Perm ua' → check_answers ua ci = check_answers ua' ci) ∧
    (∀ (x : Nat) (ua ci : List Nat),
      check_answers (x :: x :: ua) ci = check_answers (x :: ua) ci) ∧
    (∀ ua ci : List Nat, ua.toFinset ⊂ ci.toFinset → check_answers ua ci = false) ∧
    (∀ ua ci : List Nat, ci.toFinset ⊂ ua.toFinset → check_answers ua ci = false) ∧
    check_answers [2, 0] [0, 2] = true ∧
    check_answers [0, 2, 0] [0, 2] = true ∧
    check_answers [0] [0, 2] = false ∧
    check_answers [0, 1, 2] [0, 2] = false := by
  refine ⟨?_, ?_, ?_, ?_, ?_, by decide, by decide, by decide, by decide⟩
  · intro ua ci; simp [check_answers]
  · intro ua ua' ci h
    have he : ua.toFinset = ua'.toFinset := by
      ext a; simp [List.mem_toFinset, h.mem_iff]
    simp [check_answers, he]
  · intro x ua ci; simp [check_answers, List.toFinset_cons]
  · intro ua ci h; simp [check_answers]; exact h.ne
  · intro ua ci h; simp [check_answers]; exact (h.ne).symm

/-- Witness for C4: the strict-subset rejection applied at the spec's
example. -/
theorem check_answers_set_equality_witness : check_answers [0] [0, 2] = false :=
  check_answers_set_equality.2.2.2.1 [0] [0, 2] (by decide)

/-! ## Summary -/

/-- C2 (code evaluated at the failing input): on an all-zero tally the
summary's percentage lines are guarded but the tier computation divides
`correct` by `total = 0`, so `show_summary` raises instead of reporting
0%/0%; at total 3, correct 1, wrong 2 it floors to 33% and 66%. -/
theorem show_summary_zero_total_raises :
    show_summary 0 0 0 = none ∧
    show_summary 1 2 3 = some (33, 66, "Warto ćwiczyć! 📚") := by
  constructor
  · rfl
  · rfl

/-! ## Abort path of a run -/

/-- A one-question run whose only `show_question` call returns the
absent answer: the user presses escape at the first question. -/
def abortedRun : QuizState × RunResult :=
  run_quiz (fun _ => 0)
    (fun i => if i = 1 then some ⟨1, "q", ["a", "b"], [0]⟩ else none)
    (fun _ => none) ⟨[], 0, 0, 0, 0⟩ [1]

/-- C1 (code evaluated at the failing input): a run of one stored
question aborted by escape leaves the tally at 0/0 and takes the
abort/interim-report path, but `run_quiz` still calls `show_summary`
after the loop's `break`, so the summary screen is rendered anyway. -/
theorem run_quiz_abort_still_reaches_summary :
    abortedRun.1.correct = 0 ∧ abortedRun.1.wrong = 0 ∧
    abortedRun.2.aborted = true ∧
    Screen.exitConfirmation 0 1 0 0 ∈ abortedRun.2.screens ∧
    Screen.summary 1 0 0 ∈ abortedRun.2.screens := by
  decide

/-! ## Per-question loop theorems -/

/-- C6: in the per-question loop, `enter` submits and returns the
checked set only when it is nonempty, `enter` on an empty checked set
just continues the loop, and `esc` returns the absent answer, which no
present answer equals. -/
theorem show_question_submit_semantics (n : Nat) (ks : List Key) (selected : Nat)
    (checked : Finset Nat) :
    (checked ≠ ∅ →
      show_question_loop n (Key.enter :: ks) selected checked =
        some (some (pySetList n checked))) ∧
    (checked = ∅ →
      show_question_loop n (Key.enter :: ks) selected checked =
        show_question_loop n ks selected checked) ∧
    show_question_loop n (Key.esc :: ks) selected checked = some none ∧
    ∀ l : List Nat, (none : Option (List Nat)) ≠ some l := by
  refine ⟨?_, ?_, ?_, ?_⟩
  · intro h; simp [show_question_loop, show_question_step, h]
  · intro h; simp [show_question_loop, show_question_step, h]
  · simp [show_question_loop, show_question_step]
  · intro l; simp

/-- Witness for C6: submitting with checked set `{0}` in a one-option
question. -/
theorem show_question_submit_semantics_witness :
    ({0} : Finset Nat) ≠ ∅ ∧
    show_question_loop 1 [Key.enter] 0 {0} = some (some (pySetList 1 {0})) :=
  ⟨by decide, (show_question_submit_semantics 1 [] 0 {0}).1 (by decide)⟩

theorem show_question_loop_wellformed (n : Nat) (hn : 0 < n) :
    ∀ (ks : List Key) (selected : Nat) (checked : Finset Nat) (l : List Nat),
      selected < n → (∀ x ∈ checked, x < n) →
      show_question_loop n ks selected checked = some (some l) →
      l ≠ [] ∧ l.Nodup ∧ ∀ x ∈ l, x < n := by
  intro ks
  induction ks with
  | nil =>
    intro s c l _ _ h
    simp [show_question_loop] at h
  | cons k ks ih =>
    intro s c l hs hc h
    cases k with
    | up =>
      simp only [show_question_loop, show_question_step] at h
      exact ih _ _ _ (menuUp_lt s n hn) hc h
    | down =>
      simp only [show_question_loop, show_question_step] at h
      exact ih _ _ _ (menuDown_lt s n hn) hc h
    | space =>
      simp only [show_question_loop, show_question_step] at h
      by_cases hm : s ∈ c
      · rw [if_pos hm] at h
        exact ih _ _ _ hs (fun x hx => hc x (Finset.mem_of_mem_erase hx)) h
      · rw [if_neg hm] at h
        refine ih _ _ _ hs ?_ h
        intro x hx
        rcases Finset.mem_insert.mp hx with rfl | hx
        · exact hs
        · exact hc x hx
    | enter =>
      by_cases he : c = ∅
      · simp only [show_question_loop, show_question_step, if_pos he] at h
        exact ih _ _ _ hs hc h
      · simp only [show_question_loop, show_question_step, if_neg he] at h
        obtain rfl : pySetList n c = l := by simpa using h
        refine ⟨?_, List.Nodup.filter _ (List.nodup_range n), ?_⟩
        · intro hnil
          apply he
          apply Finset.eq_empty_of_forall_not_mem
          intro x hx
          have hxn : x < n := hc x hx
          have : x ∈ pySetList n c := by
            simp [pySetList, List.mem_filter, List.mem_range, hxn, hx]
          rw [hnil] at this
          exact absurd this (List.not_mem_nil x)
        · intro x hx
          have := List.mem_filter.mp hx
          exact List.mem_range.mp this.1
    | esc =>
      simp [show_question_loop, show_question_step] at h
    | other =>
      simp only [show_question_loop, show_question_step] at h
      exact ih _ _ _ hs hc h

/-- C10: when `show_question` returns a present answer, the returned
index list is nonempty, duplicate-free, and within the option range of
the displayed question. -/
theorem show_question_answer_wellformed (n : Nat) (hn : 0 < n) (keys : List Key)
    (l : List Nat) (h : show_question n keys = some (some l)) :
    l ≠ [] ∧ l.Nodup ∧ ∀ x ∈ l, x < n :=
  show_question_loop_wellformed n hn keys 0 ∅ l hn (by simp) h

/-- Witness for C10: checking option 0 then submitting in a two-option
question. -/
theorem show_question_answer_wellformed_witness :
    [0] ≠ ([] : List Nat) ∧ ([0] : List Nat).Nodup ∧ ∀ x ∈ ([0] : List Nat), x < 2 :=
  show_question_answer_wellformed 2 (by decide) [Key.space, Key.enter] [0] (by decide)

/-! ## Shuffle theorems -/

theorem cons_get_eraseIdx_perm :
    ∀ (l : List Int) (i : Nat) (h : i < l.length),
      (l.get ⟨i, h⟩ :: l.eraseIdx i).Perm l
  | x :: xs, 0, _ => by simp [List.eraseIdx]
  | x :: xs, i + 1, h => by
    have ih := cons_get_eraseIdx_perm xs i (by simpa using h)
    simp only [List.get, List.eraseIdx]
    exact (List.Perm.swap x _ _).trans (ih.cons x)

theorem sampleAux_perm (pick : Nat → Nat) :
    ∀ (n step : Nat) (xs : List Int), n = xs.length →
      (sampleAux pick n step xs).Perm xs := by
  intro n
  induction n with
  | zero =>
    intro step xs h
    obtain rfl : xs = [] := List.length_eq_zero.mp h.symm
    simp [sampleAux]
  | succ n ih =>
    intro step xs h
    cases xs with
    | nil => simp at h
    | cons x xs =>
      rw [sampleAux]
      have hi : pick step % (x :: xs).length < (x :: xs).length :=
        Nat.mod_lt _ (Nat.succ_pos _)
      have hlen : ((x :: xs).eraseIdx (pick step % (x :: xs).length)).length = n := by
        have h2 := List.length_eraseIdx_add_one hi
        omega
      have hrec := ih (step + 1) ((x :: xs).eraseIdx (pick step % (x :: xs).length)) hlen.symm
      exact (hrec.cons _).trans (cons_get_eraseIdx_perm (x :: xs) _ hi)

/-- `random.sample` over the full length of the population is a
permutation of it, whatever the randomness oracle does. -/
theorem pySample_full_perm (pick : Nat → Nat) (xs : List Int) :
    (pySample pick xs xs.length).Perm xs :=
  sampleAux_perm pick xs.length 0 xs rfl

/-- C5: `run_quiz` reshuffles the *entire* candidate sequence — the
run's question order is a permutation of all candidate IDs with the
same length, the tally is reset to 0/0 with total the full length, the
cursor is reset to 0, and the state is identical to one built without
`main`'s earlier 20-question truncation. -/
theorem run_start_full_permutation (pick1 pick2 : Nat → Nat) (st : QuizState)
    (question_ids : List Int) :
    let st2 := main_run_setup pick1 pick2 st question_ids
    st2.quizQuestions.Perm question_ids ∧
    st2.quizQuestions.length = question_ids.length ∧
    st2.correct = 0 ∧ st2.wrong = 0 ∧ st2.currentIndex = 0 ∧
    st2.total = question_ids.length ∧
    main_run_setup pick1 pick2 st question_ids = run_quiz_start pick2 st question_ids := by
  intro st2
  have hperm :
      (pySample pick2 question_ids
        (min question_ids.length question_ids.length)).Perm question_ids := by
    rw [Nat.min_self]
    exact pySample_full_perm pick2 question_ids
  exact ⟨hperm, hperm.length_eq, rfl, rfl, rfl, hperm.length_eq, rfl⟩

/-! ## Run-loop tally invariants -/

theorem run_quiz_loop_le (find : Int → Option Question)
    (answers : Nat → Option (List Nat)) (tot : Nat) :
    ∀ (rest : List Int) (k idx c w : Nat),
      (run_quiz_loop find answers tot rest k idx c w).correct +
        (run_quiz_loop find answers tot rest k idx c w).wrong ≤ c + w + rest.length := by
  intro rest
  induction rest with
  | nil =>
    intro k idx c w
    simp [run_quiz_loop]
  | cons qid rest ih =>
    intro k idx c w
    rw [run_quiz_loop]
    cases hf : find qid with
    | none =>
      have h := ih k (idx + 1) c w
      simp only [List.length_cons]
      omega
    | some q =>
      cases ha : answers k with
      | none =>
        simp only [List.length_cons]
        omega
      | some ua =>
        by_cases hcc : check_answers ua q.correct_indices = true
        · have h := ih (k + 1) (idx + 1) (c + 1) w
          simp only [hcc, if_true, List.length_cons]
          omega
        · have h := ih (k + 1) (idx + 1) c (w + 1)
          simp [eq_false_of_ne_true hcc]
          omega

theorem run_quiz_loop_eq_no_skip (find : Int → Option Question)
    (answers : Nat → Option (List Nat)) (tot : Nat) :
    ∀ (rest : List Int) (k idx c w : Nat),
      (run_quiz_loop find answers tot rest k idx c w).aborted = false →
      (run_quiz_loop find answers tot rest k idx c w).correct +
        (run_quiz_loop find answers tot rest k idx c w).wrong = c + w + rest.length →
      ∀ qid ∈ rest, (find qid).isSome := by
  intro rest
  induction rest with
  | nil =>
    intro k idx c w _ _ qid hmem
    exact absurd hmem (List.not_mem_nil qid)
  | cons qid0 rest ih =>
    intro k idx c w hab heq qid hmem
    rw [run_quiz_loop] at hab heq
    cases hf : find qid0 with
    | none =>
      rw [hf] at heq
      have hle := run_quiz_loop_le find answers tot rest k (idx + 1) c w
      simp only [List.length_cons] at heq
      omega
    | some q =>
      rw [hf] at hab heq
      cases ha : answers k with
      | none =>
        rw [ha] at hab
        simp at hab
      | some ua =>
        rw [ha] at hab heq
        dsimp only at hab heq
        rcases List.mem_cons.mp hmem with rfl | hmem'
        · simp [hf]
        · by_cases hcc : check_answers ua q.correct_indices = true
          · simp only [if_pos hcc] at hab heq
            refine ih (k + 1) (idx + 1) (c + 1) w hab ?_ qid hmem'
            simp only [List.length_cons] at heq
            omega
          · simp only [if_neg hcc] at hab heq
            refine ih (k + 1) (idx + 1) c (w + 1) hab ?_ qid hmem'
            simp only [List.length_cons] at heq
            omega

/-- C9: over a whole run, correct + wrong never exceeds the tally's
total; the total is fixed at initialization to the full length of the
shuffled sequence (stale IDs included); and a non-aborted run can end
with correct + wrong = total only when every ID of the run was present
in the question store. -/
theorem tally_bounded_by_total (pick : Nat → Nat) (find : Int → Option Question)
    (answers : Nat → Option (List Nat)) (st : QuizState) (question_ids : List Int) :
    let r := run_quiz pick find answers st question_ids
    r.1.correct + r.1.wrong ≤ r.1.total ∧
    r.1.total = question_ids.length ∧
    (r.2.aborted = false → r.1.correct + r.1.wrong = r.1.total →
      ∀ qid ∈ question_ids, (find qid).isSome) := by
  set qq := pySample pick question_ids (min question_ids.length question_ids.length)
    with hqqdef
  have hperm : qq.Perm question_ids := by
    rw [hqqdef, Nat.min_self]
    exact pySample_full_perm pick question_ids
  intro r
  have hc : r.1.correct = (run_quiz_loop find answers qq.length qq 0 0 0 0).correct := rfl
  have hw : r.1.wrong = (run_quiz_loop find answers qq.length qq 0 0 0 0).wrong := rfl
  have ht : r.1.total = qq.length := rfl
  have habr : r.2.aborted = (run_quiz_loop find answers qq.length qq 0 0 0 0).aborted := rfl
  refine ⟨?_, ?_, ?_⟩
  · rw [hc, hw, ht]
    simpa using run_quiz_loop_le find answers qq.length qq 0 0 0 0
  · rw [ht]
    exact hperm.length_eq
  · intro hab0 heq qid hmem
    rw [habr] at hab0
    rw [hc, hw, ht] at heq
    exact run_quiz_loop_eq_no_skip find answers qq.length qq 0 0 0 0 hab0
      (by simpa using heq) qid (hperm.mem_iff.mpr hmem)

/-- Witness for C9: a fully answered two-question run with every ID
present has its first ID resolvable in the store. -/
theorem tally_bounded_by_total_witness :
    (1 : Int) ∈ ([1, 2] : List Int) ∧
    ((fun i : Int => if i = 1 then some (⟨1, "q1", ["a", "b"], [0]⟩ : Question)
      else if i = 2 then some (⟨2, "q2", ["c", "d"], [1]⟩ : Question)
      else none) 1).isSome = true :=
  ⟨by decide,
   (tally_bounded_by_total (fun _ => 0)
      (fun i : Int => if i = 1 then some (⟨1, "q1", ["a", "b"], [0]⟩ : Question)
        else if i = 2 then some (⟨2, "q2", ["c", "d"], [1]⟩ : Question)
        else none)
      (fun _ => some [0]) ⟨[], 0, 0, 0, 0⟩ [1, 2]).2.2 (by decide) (by decide)
     1 (by decide)⟩

/-! ## Parser invariants -/

theorem parseOptions_bound :
    ∀ (segs : List (List Char)) (opts : List String) (cors : List Nat),
      (∀ i ∈ cors, i < opts.length) →
      ∀ i ∈ (parseOptions segs opts cors).2, i < (parseOptions segs opts cors).1.length := by
  intro segs
  induction segs with
  | nil =>
    intro opts cors h
    simpa [parseOptions] using h
  | cons seg rest ih =>
    intro opts cors h
    rw [parseOptions]
    by_cases hx : seg.take 3 = ['[', 'X', ']']
    · rw [if_pos hx]
      apply ih
      intro i hi
      rcases List.mem_append.mp hi with hi | hi
      · have := h i hi
        simp only [List.length_append, List.length_cons, List.length_nil]
        omega
      · simp only [List.mem_singleton] at hi
        subst hi
        simp only [List.length_append, List.length_cons, List.length_nil]
        omega
    · rw [if_neg hx]
      apply ih
      intro i hi
      have := h i hi
      simp only [List.length_append, List.length_cons, List.length_nil]
      omega

theorem parseLine_bound (l : List Char) (k : Int) (q : Question)
    (h : parseLine l = some (k, q)) :
    ∀ i ∈ q.correct_indices, i < q.options.length := by
  unfold parseLine at h
  dsimp only at h
  by_cases he : pyStrip l = []
  · rw [if_pos he] at h
    exact absurd h (by simp)
  · rw [if_neg he] at h
    by_cases hp : (splitFirstSpace (pyStrip l)).length < 2
    · rw [if_pos hp] at h
      exact absurd h (by simp)
    · rw [if_neg hp] at h
      cases hpi : pyInt? ((splitFirstSpace (pyStrip l)).getD 0 []) with
      | none =>
        rw [hpi] at h
        exact absurd h (by simp)
      | some q_id =>
        rw [hpi] at h
        dsimp only at h
        by_cases hs :
            (splitOnChar '*' ((splitFirstSpace (pyStrip l)).getD 1 [])).length < 2
        · rw [if_pos hs] at h
          exact absurd h (by simp)
        · rw [if_neg hs] at h
          by_cases ho :
              (parseOptions
                ((splitOnChar '*' ((splitFirstSpace (pyStrip l)).getD 1 [])).drop 1)
                [] []).1 = []
          · rw [if_pos ho] at h
            exact absurd h (by simp)
          · rw [if_neg ho] at h
            simp only [Option.some.injEq, Prod.mk.injEq] at h
            obtain ⟨-, rfl⟩ := h
            exact parseOptions_bound _ [] [] (by simp)

theorem mem_upsert (m : List (Int × Question)) (k : Int) (v : Question)
    (p : Int × Question) (h : p ∈ upsert m k v) : p ∈ m ∨ p = (k, v) := by
  unfold upsert at h
  split at h
  · rcases List.mem_map.mp h with ⟨a, ha, hae⟩
    by_cases hk : a.1 = k
    · right
      rw [← hae, if_pos hk]
    · left
      rw [← hae, if_neg hk]
      exact ha
  · rcases List.mem_append.mp h with h | h
    · exact Or.inl h
    · exact Or.inr (by simpa using h)

theorem parse_questions_inv (lines : List String) :
    ∀ p ∈ parse_questions lines, ∀ i ∈ p.2.correct_indices, i < p.2.options.length := by
  suffices hgen :
      ∀ (ls : List String) (acc : List (Int × Question)),
        (∀ p ∈ acc, ∀ i ∈ p.2.correct_indices, i < p.2.options.length) →
        ∀ p ∈ ls.foldl
          (fun acc line =>
            match parseLine line.toList with
            | none => acc
            | some (k, v) => upsert acc k v) acc,
          ∀ i ∈ p.2.correct_indices, i < p.2.options.length by
    intro p hp
    exact hgen lines [] (by simp) p hp
  intro ls
  induction ls with
  | nil =>
    intro acc hacc p hp
    exact hacc p hp
  | cons line rest ih =>
    intro acc hacc p hp
    rw [List.foldl_cons] at hp
    refine ih _ ?_ p hp
    intro p' hp'
    cases hpl : parseLine line.toList with
    | none =>
      rw [hpl] at hp'
      exact hacc p' hp'
    | some kv =>
      rw [hpl] at hp'
      rcases mem_upsert _ _ _ _ hp' with hm | rfl
      · exact hacc p' hm
      · exact parseLine_bound line.toList kv.1 kv.2 (by rw [hpl])

/-- C3 (amended): every `Question` stored by the parser has its
correct-index set inside `{0, ..., number of options - 1}`; the set may
be empty when no option of the line carries the `[X]` marker. -/
theorem parsed_correct_indices_in_range (lines : List String) (p : Int × Question)
    (hmem : p ∈ parse_questions lines) :
    ∀ i ∈ p.2.correct_indices, i < p.2.options.length :=
  parse_questions_inv lines p hmem

/-- Witness for C3's amended theorem at a concrete two-option line. -/
theorem parsed_correct_indices_in_range_witness :
    (1, (⟨1, "t", ["a", "b"], [0]⟩ : Question)) ∈ parse_questions ["1 t*[X]a*b"] ∧
    0 < (⟨1, "t", ["a", "b"], [0]⟩ : Question).options.length :=
  ⟨by decide,
   parsed_correct_indices_in_range ["1 t*[X]a*b"] (1, ⟨1, "t", ["a", "b"], [0]⟩)
     (by decide) 0 (by decide)⟩

/-- Counterexample to C3 as stated: the line `1 t*a*b` has no `[X]`
marker, and the parser stores its question with an empty correct-index
set. -/
theorem parsed_correct_indices_nonempty_fails :
    ¬ (∀ p ∈ parse_questions ["1 t*a*b"], p.2.correct_indices ≠ []) := by
  decide

/-- C8: a blank line, a line with fewer than two space-separated parts,
a line with a non-integer ID, and a line whose remainder has fewer than
two `*`-segments each produce no parsed entry, and a skipped line
leaves the parse of the other lines unchanged. -/
theorem malformed_lines_skipped :
    (∀ l : List Char, pyStrip l = [] → parseLine l = none) ∧
    (∀ l : List Char, (splitFirstSpace (pyStrip l)).length < 2 → parseLine l = none) ∧
    (∀ l : List Char, pyInt? ((splitFirstSpace (pyStrip l)).getD 0 []) = none →
      parseLine l = none) ∧
    (∀ l : List Char,
      (splitOnChar '*' ((splitFirstSpace (pyStrip l)).getD 1 [])).length < 2 →
      parseLine l = none) ∧
    (∀ (pre post : List String) (line : String), parseLine line.toList = none →
      parse_questions (pre ++ line :: post) = parse_questions (pre ++ post)) := by
  refine ⟨?_, ?_, ?_, ?_, ?_⟩
  · intro l h
    simp [parseLine, h]
  · intro l h
    by_cases he : pyStrip l = []
    · simp [parseLine, he]
    · simp [parseLine, he, h]
  · intro l h
    by_cases he : pyStrip l = []
    · simp [parseLine, he]
    · by_cases hp : (splitFirstSpace (pyStrip l)).length < 2
      · simp [parseLine, he, hp]
      · simp only [List.getD_eq_getElem?_getD] at h
        simp [parseLine, he, hp, h]
  · intro l h
    by_cases he : pyStrip l = []
    · simp [parseLine, he]
    · by_cases hp : (splitFirstSpace (pyStrip l)).length < 2
      · simp [parseLine, he, hp]
      · cases hpi : pyInt? ((splitFirstSpace (pyStrip l))[0]?.getD []) with
        | none => simp [parseLine, he, hp, hpi]
        | some q_id =>
          simp only [List.getD_eq_getElem?_getD] at h
          simp [parseLine, he, hp, hpi, h]
  · intro pre post line h
    simp only [parse_questions, List.foldl_append, List.foldl_cons, h]

/-- Witness for C8: removing the blank line does not change the parse
of its neighbours. -/
theorem malformed_lines_skipped_witness :
    parse_questions ["1 a*[X]b", " ", "2 c*[X]d"] =
      parse_questions ["1 a*[X]b", "2 c*[X]d"] :=
  malformed_lines_skipped.2.2.2.2 ["1 a*[X]b"] ["2 c*[X]d"] " " (by decide)

end QuizApp
